import Mathlib

/-!
Verification of the meteo CLI (src/main.rs): city autocomplete lookup,
label display formatting, interactive selection, forecast-page scraping
and the meteogram fetch pipeline, shallowly embedded in Lean.

External library functions used by the source (the `percent_encoding`
crate's decoder, Rust std `String::from_utf8_lossy`, `str::replace`,
`usize::from_str`, serde derive deserialization, and the `select` crate's
predicate-based document search) are embedded from their documented
semantics; everything else is translated directly from src/main.rs.
-/

namespace Meteo

/-- The `City` struct of src/main.rs (derive Deserialize): four string
fields `id`, `label`, `value`, `custom`. -/
structure City where
  id : String
  label : String
  value : String
  custom : String
deriving Repr, DecidableEq

/-! ### Percent-decoding and UTF-8, for the `Display` impl of `City`

The Rust code formats a city as
`percent_decode_str(&self.label).decode_utf8_lossy().replace('+', " ")`.
We model bytes as `Nat` (each < 256 in practice). -/

/-- ASCII hex digit test, as in the `percent_encoding` crate's decoder. -/
def isHexDigit (b : Nat) : Bool :=
  (48 ≤ b && b ≤ 57) || (65 ≤ b && b ≤ 70) || (97 ≤ b && b ≤ 102)

/-- Numeric value of an ASCII hex digit byte. -/
def hexVal (b : Nat) : Nat :=
  if b ≤ 57 then b - 48 else if b ≤ 70 then b - 55 else b - 87

/-- Worker for `percentDecode`, structurally recursive on a fuel argument
(one unit of fuel per input byte always suffices, since every step consumes
at least one byte). -/
def percentDecodeAux : Nat → List Nat → List Nat
  | 0, _ => []
  | _, [] => []
  | fuel + 1, b :: rest =>
    if b = 37 then
      match rest with
      | h :: l :: rest2 =>
        if isHexDigit h && isHexDigit l then
          (hexVal h * 16 + hexVal l) :: percentDecodeAux fuel rest2
        else 37 :: percentDecodeAux fuel rest
      | _ => 37 :: percentDecodeAux fuel rest
    else b :: percentDecodeAux fuel rest

/-- The `percent_encoding` crate's `percent_decode`: a `%` followed by two
hex digits becomes the decoded byte; a `%` not followed by two hex digits
is passed through literally (nothing after it is consumed). `+` (byte 43)
is not special. -/
def percentDecode (l : List Nat) : List Nat := percentDecodeAux l.length l

/-- UTF-8 encoding of one scalar value (Rust `char` / Lean `Char`). -/
def utf8EncodeChar (c : Char) : List Nat :=
  let n := c.toNat
  if n < 128 then [n]
  else if n < 2048 then [192 + n / 64, 128 + n % 64]
  else if n < 65536 then [224 + n / 4096, 128 + (n / 64) % 64, 128 + n % 64]
  else [240 + n / 262144, 128 + (n / 4096) % 64, 128 + (n / 64) % 64, 128 + n % 64]

/-- UTF-8 encoding of a string's characters (a Rust `String`'s bytes). -/
def utf8Encode : List Char → List Nat
  | [] => []
  | c :: cs => utf8EncodeChar c ++ utf8Encode cs

/-- UTF-8 continuation byte test (`0x80..=0xBF`). -/
def isCont (b : Nat) : Bool := 128 ≤ b && b ≤ 191

/-- Admissible second byte after a three-byte lead (excludes overlong forms
and surrogates, as Rust's UTF-8 validation does). -/
def cont3lead (b b2 : Nat) : Bool :=
  if b = 224 then 160 ≤ b2 && b2 ≤ 191
  else if b = 237 then 128 ≤ b2 && b2 ≤ 159
  else isCont b2

/-- Admissible second byte after a four-byte lead. -/
def cont4lead (b b2 : Nat) : Bool :=
  if b = 240 then 144 ≤ b2 && b2 ≤ 191
  else if b = 244 then 128 ≤ b2 && b2 ≤ 143
  else isCont b2

/-- The Unicode replacement character U+FFFD. -/
def rep : Char := Char.ofNat 65533

/-- Worker for `utf8Lossy`, structurally recursive on a fuel argument (one
unit of fuel per input byte always suffices, since every step consumes at
least one byte). -/
def utf8LossyAux : Nat → List Nat → List Char
  | 0, _ => []
  | _, [] => []
  | fuel + 1, b :: rest =>
    if b < 128 then Char.ofNat b :: utf8LossyAux fuel rest
    else if b < 194 then rep :: utf8LossyAux fuel rest
    else if b < 224 then
      match rest with
      | b2 :: rest2 =>
        if isCont b2 then
          Char.ofNat ((b - 192) * 64 + (b2 - 128)) :: utf8LossyAux fuel rest2
        else rep :: utf8LossyAux fuel rest
      | [] => [rep]
    else if b < 240 then
      match rest with
      | b2 :: b3 :: rest3 =>
        if cont3lead b b2 && isCont b3 then
          Char.ofNat ((b - 224) * 4096 + (b2 - 128) * 64 + (b3 - 128)) :: utf8LossyAux fuel rest3
        else rep :: utf8LossyAux fuel rest
      | _ => rep :: utf8LossyAux fuel rest
    else if b < 245 then
      match rest with
      | b2 :: b3 :: b4 :: rest4 =>
        if cont4lead b b2 && isCont b3 && isCont b4 then
          Char.ofNat ((b - 240) * 262144 + (b2 - 128) * 4096 + (b3 - 128) * 64 + (b4 - 128))
            :: utf8LossyAux fuel rest4
        else rep :: utf8LossyAux fuel rest
      | _ => rep :: utf8LossyAux fuel rest
    else rep :: utf8LossyAux fuel rest

/-- Modelled from Rust std `String::from_utf8_lossy`: decode UTF-8,
substituting U+FFFD for invalid byte sequences. On valid UTF-8 this is
exact; on invalid sequences the number of replacement characters emitted
is an approximation of Rust's maximal-subpart rule (never exercised by
the theorems below, which only decode valid UTF-8). -/
def utf8Lossy (l : List Nat) : List Char := utf8LossyAux l.length l

/-- Rust `str::replace('+', " ")` for a single-character pattern and
single-character replacement: replace every `+` by a space. -/
def replacePlus (cs : List Char) : List Char :=
  cs.map fun c => if c = '+' then ' ' else c

/-- The `Display` impl for `City`, exposed (as the spec requires) as a pure
function on the label string: percent-decode the label's UTF-8 bytes,
decode the result as UTF-8 with lossy substitution, then replace every
literal `+` with a space. -/
def format_city_label (label : String) : String :=
  ⟨replacePlus (utf8Lossy (percentDecode (utf8Encode label.data)))⟩

/-- What `city.to_string()` produces via the `Display` impl. -/
def City.display (c : City) : String := format_city_label c.label

/-! ### Selection (`select_city_prompt`)

The Rust function prints the candidates, reads a line from stdin, parses
`input_buffer.trim().parse::<usize>()` (propagating a parse failure with
`?`) and then evaluates `&cities[index]`, which panics when the index is
out of range. We model the read line as an explicit input string and the
panic as a distinguished outcome. -/

/-- ASCII whitespace, for `str::trim` (Rust trims Unicode whitespace; the
inputs considered here only carry ASCII). -/
def isWs (c : Char) : Bool := c = ' ' || c = '\t' || c = '\n' || c = '\r'

/-- Rust `str::trim`: strip leading and trailing whitespace. -/
def trimChars (cs : List Char) : List Char :=
  ((cs.dropWhile isWs).reverse.dropWhile isWs).reverse

/-- Rust `usize::from_str` (on a 64-bit target): optional leading `+`, then
one or more ASCII digits, rejecting values at or above `2^64`. -/
def parseUsize (s : String) : Option Nat :=
  let t := trimChars s.data
  let t2 := match t with
    | '+' :: rest => rest
    | _ => t
  if t2.isEmpty then none
  else if t2.all fun c => c.isDigit then
    let n := t2.foldl (fun acc c => acc * 10 + (c.toNat - 48)) 0
    if n < 18446744073709551616 then some n else none
  else none

/-- Outcome of one run of `select_city_prompt` on a given input line:
a selected city, a propagated integer-parse error, or a panic from the
out-of-bounds slice index `&cities[index]`. -/
inductive SelectOutcome where
  | ok (c : City)
  | parseErr
  | indexPanic
deriving Repr, DecidableEq

/-- Function `select_city_prompt` of src/main.rs, with the stdin line passed
explicitly: trim and parse the input as `usize` (a failure propagates via
`?`), then index the candidate slice, panicking when out of range. -/
def select_city_prompt (cities : List City) (input : String) : SelectOutcome :=
  match parseUsize input with
  | none => .parseErr
  | some i =>
    if h : i < cities.length then .ok (cities.get ⟨i, h⟩) else .indexPanic

/-- Function `forecast_url` of src/main.rs:
`format!("https://tempo.cptec.inpe.br/{}", city.custom)`. -/
def forecast_url (c : City) : String :=
  "https://tempo.cptec.inpe.br/" ++ c.custom

/-- A concrete candidate used by the closed theorems below. -/
def sampleCity : City :=
  { id := "244", label := "Florianopolis, SC", value := "Florianopolis",
    custom := "sc/florianopolis" }

/-! ### `search_cities`: serde deserialization of the autocomplete body

`search_cities` issues the GET (transport failures are `NetworkError`s of
the external HTTP client) and then runs
`serde_json::from_str::<Vec<City>>(&json)`. We embed the typed
deserialization over a parsed JSON document: a well-formed body is a
`Json` value, and the derived `Deserialize` for `City` visits the fields
of each object in order, erroring on a duplicate known field or a
non-string value for a known field, ignoring unknown fields, and erroring
at the end when a known field is missing. A non-array body and a
non-object element are type errors. -/

/-- A parsed JSON document. -/
inductive Json where
  | null
  | bool (b : Bool)
  | num (n : Int)
  | str (s : String)
  | arr (xs : List Json)
  | obj (fields : List (String × Json))

/-- First binding of key `k` in an object's field list. -/
def jLookup (fs : List (String × Json)) (k : String) : Option Json :=
  match fs with
  | [] => none
  | (k2, v) :: rest => if k2 = k then some v else jLookup rest k

/-- First binding of `k` when it is a string. -/
def strLookup (fs : List (String × Json)) (k : String) : Option String :=
  match jLookup fs k with
  | some (Json.str s) => some s
  | _ => none

/-- Number of bindings of key `k` in an object's field list. -/
def countKey (fs : List (String × Json)) (k : String) : Nat :=
  match fs with
  | [] => 0
  | (k2, _) :: rest => (if k2 = k then 1 else 0) + countKey rest k

/-- One known-field visit of the derived `Deserialize` impl: a second
binding of the field is a duplicate-field error, a non-string value an
invalid-type error. -/
def fieldStep (o : Option String) (jv : Json) (name : String) : Except String String :=
  match o, jv with
  | some _, _ => .error ("duplicate field " ++ name)
  | none, .str s => .ok s
  | none, _ => .error ("invalid type for field " ++ name)

/-- End of the field loop: every known field must have been seen. -/
def finishCity (oi ol ov oc : Option String) : Except String City :=
  match oi, ol, ov, oc with
  | some i, some l, some v, some c => .ok ⟨i, l, v, c⟩
  | _, _, _, _ => .error "missing field"

/-- The field loop of the derived `Deserialize` impl for `City`: visit the
bindings in order, accumulating the four known fields and ignoring unknown
ones. -/
def goCity : List (String × Json) → Option String → Option String → Option String →
    Option String → Except String City
  | [], oi, ol, ov, oc => finishCity oi ol ov oc
  | (k, jv) :: rest, oi, ol, ov, oc =>
    if k = "id" then
      match fieldStep oi jv "id" with
      | .error e => .error e
      | .ok s => goCity rest (some s) ol ov oc
    else if k = "label" then
      match fieldStep ol jv "label" with
      | .error e => .error e
      | .ok s => goCity rest oi (some s) ov oc
    else if k = "value" then
      match fieldStep ov jv "value" with
      | .error e => .error e
      | .ok s => goCity rest oi ol (some s) oc
    else if k = "custom" then
      match fieldStep oc jv "custom" with
      | .error e => .error e
      | .ok s => goCity rest oi ol ov (some s)
    else goCity rest oi ol ov oc

/-- Derived `Deserialize` for one `City`. -/
def deserializeCity (j : Json) : Except String City :=
  match j with
  | .obj fs => goCity fs none none none none
  | _ => .error "invalid type: expected struct City"

/-- serde's sequence visitor for `Vec<City>`: elements in order, first
failure aborts. -/
def mapCities : List Json → Except String (List City)
  | [] => .ok []
  | j :: rest =>
    match deserializeCity j with
    | .error e => .error e
    | .ok c =>
      match mapCities rest with
      | .error e => .error e
      | .ok cs => .ok (c :: cs)

/-- Running `serde_json::from_str::<Vec<City>>` on a parsed document. -/
def deserializeCities (j : Json) : Except String (List City) :=
  match j with
  | .arr xs => mapCities xs
  | _ => .error "invalid type: expected a sequence"

/-- Function `search_cities` of src/main.rs at the deserialization boundary: the
HTTP transport and JSON lexing are external; the response body is given
as a parsed document. -/
def search_cities (body : Json) : Except String (List City) :=
  deserializeCities body

/-- Spec-side shape predicate: an element that has each of the four known
fields exactly once, with a string value. -/
def isGoodCityObj : Json → Bool
  | .obj fs =>
    ["id", "label", "value", "custom"].all fun k =>
      (countKey fs k == 1) && (strLookup fs k).isSome
  | _ => false

/-- Spec-side: the first binding of key `k` is absent or not a string. -/
def badKeyB (fs : List (String × Json)) (k : String) : Bool :=
  match jLookup fs k with
  | some (Json.str _) => false
  | _ => true

/-- Spec-side shape violation: not an object, or some known field missing
or (first binding) of the wrong type. -/
def isBadCityObj : Json → Bool
  | .obj fs => ["id", "label", "value", "custom"].any (badKeyB fs)
  | _ => true

/-- Spec-side verbatim extraction of a `City` from its JSON object. -/
def cityOfJson : Json → City
  | .obj fs =>
    ⟨(strLookup fs "id").getD "", (strLookup fs "label").getD "",
      (strLookup fs "value").getD "", (strLookup fs "custom").getD ""⟩
  | _ => ⟨"", "", "", ""⟩

/-- Invariant of one accumulator of the field loop: the field was already
seen (and must not occur again), or occurs exactly once ahead, as a
string. -/
def FieldInv (fs : List (String × Json)) (o : Option String) (k : String) : Prop :=
  match o with
  | some _ => countKey fs k = 0
  | none => countKey fs k = 1 ∧ ∃ s, jLookup fs k = some (Json.str s)

/-- The value the field loop ends up assigning to a field slot. -/
def fieldRes (fs : List (String × Json)) (o : Option String) (k : String) : String :=
  match o with
  | some s => s
  | none => (strLookup fs k).getD ""

/-- Bad continuation for key `k`: no further binding although the slot is
empty, or the next binding for it is not a string. -/
def badKey (fs : List (String × Json)) (k : String) : Prop :=
  jLookup fs k = none ∨ ∃ v, jLookup fs k = some v ∧ ∀ s, v ≠ Json.str s

/-- Two concrete well-shaped autocomplete elements (the second with the
fields reordered and an extra, ignored field). -/
def goodJson1 : Json :=
  .obj [("id", .str "1"), ("label", .str "Rio%20de%20Janeiro"),
    ("value", .str "Rio"), ("custom", .str "rj/rio-de-janeiro")]

/-- See `goodJson1`. -/
def goodJson2 : Json :=
  .obj [("custom", .str "c2"), ("value", .str "v2"), ("label", .str "l2"),
    ("id", .str "2"), ("extra", .num 5)]

/-! ### HTML scraping (`scrape_meteogram_url`)

The Rust code parses the page with the `select` crate (tolerant html5ever
parsing: any input yields some document tree) and evaluates
`doc.find(Name("div").and(Attr("id", "meteograma")).descendant(Name("img"))).next()`:
the first node in document (pre-order) order that is an `img` element with
a strict ancestor that is a `div` with attribute `id="meteograma"`. We
embed the parsed document as a forest of nodes and the predicate search as
a pre-order traversal carrying the has-matching-ancestor flag. -/

/-- A node of the parsed HTML document. -/
inductive Node where
  | elem (name : String) (attrs : List (String × String)) (children : List Node)
  | text (s : String)

/-- First binding of an attribute (html5ever keeps the first occurrence of
a duplicated attribute). -/
def aLookup (attrs : List (String × String)) (k : String) : Option String :=
  match attrs with
  | [] => none
  | (k2, v) :: rest => if k2 = k then some v else aLookup rest k

/-- The `Name("div").and(Attr("id", "meteograma"))` predicate. -/
def isMeteoDiv (n : Node) : Bool :=
  match n with
  | .elem name attrs _ => name = "div" && aLookup attrs "id" = some "meteograma"
  | .text _ => false

/-- The `Name("img")` predicate. -/
def isImg (n : Node) : Bool :=
  match n with
  | .elem name _ _ => name = "img"
  | .text _ => false

mutual
/-- First node of the subtree of `n` (in pre-order) that is an `img` whose
strict-ancestor chain, extended by `flag` (whether an ancestor above `n`
already matched), contains a meteogram div. This is the document-order
predicate search of `doc.find(...).next()`. -/
def findImg (flag : Bool) : Node → Option Node
  | .text _ => none
  | .elem name attrs children =>
    if flag && isImg (Node.elem name attrs children) then some (Node.elem name attrs children)
    else findImgList (flag || isMeteoDiv (Node.elem name attrs children)) children

/-- Search `findImg` over a forest, left to right. -/
def findImgList (flag : Bool) : List Node → Option Node
  | [] => none
  | n :: rest =>
    match findImg flag n with
    | some r => some r
    | none => findImgList flag rest
end

mutual
/-- All nodes matching the code's selector in the subtree of `n`, in
document order (spec side: the full match list, of which the code takes
the head). -/
def collectImg (flag : Bool) : Node → List Node
  | .text _ => []
  | .elem name attrs children =>
    if flag && isImg (Node.elem name attrs children) then
      Node.elem name attrs children ::
        collectImgList (flag || isMeteoDiv (Node.elem name attrs children)) children
    else collectImgList (flag || isMeteoDiv (Node.elem name attrs children)) children

/-- Collection `collectImg` over a forest. -/
def collectImgList (flag : Bool) : List Node → List Node
  | [] => []
  | n :: rest => collectImg flag n ++ collectImgList flag rest
end

mutual
/-- Spec side: the first `div` with `id="meteograma"` in pre-order,
including `n` itself. -/
def firstDiv : Node → Option Node
  | .text _ => none
  | .elem name attrs children =>
    if isMeteoDiv (Node.elem name attrs children) then some (Node.elem name attrs children)
    else firstDivList children

/-- Search `firstDiv` over a forest. -/
def firstDivList : List Node → Option Node
  | [] => none
  | n :: rest =>
    match firstDiv n with
    | some d => some d
    | none => firstDivList rest
end

mutual
/-- Spec side: the first `img` in pre-order, including `n` itself. -/
def firstImgIncl : Node → Option Node
  | .text _ => none
  | .elem name attrs children =>
    if isImg (Node.elem name attrs children) then some (Node.elem name attrs children)
    else firstImgInclList children

/-- Search `firstImgIncl` over a forest. -/
def firstImgInclList : List Node → Option Node
  | [] => none
  | n :: rest =>
    match firstImgIncl n with
    | some i => some i
    | none => firstImgInclList rest
end

/-- Spec side: the first `img` among the strict descendants of `d`. -/
def descFirstImg : Node → Option Node
  | .text _ => none
  | .elem _ _ children => firstImgInclList children

/-- Attribute access `node.attr(k)` of the `select` crate. -/
def nodeAttr : Node → String → Option String
  | .text _, _ => none
  | .elem _ attrs _, k => aLookup attrs k

/-- Function `scrape_meteogram_url` of src/main.rs on the parsed document:
`doc.find(selector).next().and_then(|node| node.attr("src")).map(..)`. -/
def scrape_meteogram_url (doc : List Node) : Option String :=
  match findImgList false doc with
  | none => none
  | some n => nodeAttr n "src"

/-- Spec side: every `img` with a meteogram-div strict ancestor, in
document order. -/
def matchingImgs (doc : List Node) : List Node := collectImgList false doc

/-- The spec's positive fixture:
`<div id="meteograma"><span><img src="/x.png"></span></div>`. -/
def imgX : Node := .elem "img" [("src", "/x.png")] []

/-- See `imgX`. -/
def doc6 : List Node :=
  [.elem "div" [("id", "meteograma")] [.elem "span" [] [imgX]]]

/-- A meteogram div with no descendant `img`. -/
def emptyDiv : Node := .elem "div" [("id", "meteograma")] []

/-- An `img` inside a second meteogram div. -/
def imgY : Node := .elem "img" [("src", "/y.png")] []

/-- A document whose first meteogram div has no `img`, while a later
meteogram div does. -/
def doc7 : List Node := [emptyDiv, .elem "div" [("id", "meteograma")] [imgY]]

/-- An `img` with an empty (but present) `src` attribute. -/
def imgEmptySrc : Node := .elem "img" [("src", "")] []

/-- A meteogram div whose first `img` has `src=""`. -/
def doc10 : List Node := [.elem "div" [("id", "meteograma")] [imgEmptySrc]]

/-! ### The meteogram pipeline (`fetch_meteogram`)

`fetch_meteogram` chains `fetch_forecast_page` (an HTTP GET of
`forecast_url city` whose transport failures propagate via `?`), the
scrape (whose `None` is converted by `.context("Could not find meteogram
URL")` into an error), and the asset GET. The HTTP client and the HTML
parser are external; they are passed as an explicit environment. -/

/-- The error kinds that can leave `fetch_meteogram`: a transport error of
either HTTP call, or the orchestrator's missing-meteogram context error. -/
inductive PError where
  | network (msg : String)
  | meteogramNotFound
deriving Repr, DecidableEq

/-- The external collaborators of the pipeline: the blocking HTTP client
(text and byte responses) and the tolerant HTML parser. -/
structure Env where
  getText : String → Except String String
  getBytes : String → Except String (List Nat)
  parseHtml : String → List Node

/-- Function `fetch_forecast_page` of src/main.rs: GET the forecast URL, with any
transport failure propagating as a network error. -/
def fetch_forecast_page (env : Env) (c : City) : Except PError String :=
  match env.getText (forecast_url c) with
  | .ok body => .ok body
  | .error e => .error (.network e)

/-- Function `fetch_meteogram` of src/main.rs: fetch the page, scrape the meteogram
URL (absence becomes the orchestrator's not-found error), then fetch the
asset bytes. -/
def fetch_meteogram (env : Env) (c : City) : Except PError (List Nat) :=
  match fetch_forecast_page env c with
  | .error e => .error e
  | .ok page =>
    match scrape_meteogram_url (env.parseHtml page) with
    | none => .error .meteogramNotFound
    | some url =>
      match env.getBytes url with
      | .ok bytes => .ok bytes
      | .error e => .error (.network e)

/-- A concrete environment for the closed pipeline theorems. -/
def sampleEnv : Env :=
  { getText := fun url =>
      if url = "https://tempo.cptec.inpe.br/sc/florianopolis" then .ok "<page>"
      else .error "dns failure",
    getBytes := fun url =>
      if url = "/x.png" then .ok [137, 80, 78, 71] else .error "dns failure",
    parseHtml := fun _ => doc6 }

/-! ### Helper lemmas about the decoding chain -/

theorem percentDecodeAux_no37 (fuel : Nat) :
    ∀ l : List Nat, l.length ≤ fuel → 37 ∉ l → percentDecodeAux fuel l = l := by
  induction fuel with
  | zero =>
    intro l hlen _
    have : l = [] := List.eq_nil_of_length_eq_zero (Nat.le_zero.mp hlen)
    subst this
    rfl
  | succ fuel ih =>
    intro l hlen hmem
    match l with
    | [] => rfl
    | b :: rest =>
      have hb : b ≠ 37 := fun hb => hmem (hb ▸ List.mem_cons_self b rest)
      have hrest : 37 ∉ rest := fun hr => hmem (List.mem_cons_of_mem b hr)
      have hlen2 : rest.length ≤ fuel := by
        simp only [List.length_cons] at hlen
        omega
      simp [percentDecodeAux, hb, ih rest hlen2 hrest]

theorem percentDecode_no37 (l : List Nat) (h : 37 ∉ l) : percentDecode l = l :=
  percentDecodeAux_no37 l.length l (Nat.le_refl _) h

theorem utf8Encode_ascii (cs : List Char) (h : ∀ c ∈ cs, c.toNat < 128) :
    utf8Encode cs = cs.map Char.toNat := by
  induction cs with
  | nil => rfl
  | cons c cs ih =>
    have hc : c.toNat < 128 := h c (List.mem_cons_self c cs)
    simp [utf8Encode, utf8EncodeChar, hc, ih fun x hx => h x (List.mem_cons_of_mem c hx)]

theorem utf8LossyAux_ascii (fuel : Nat) :
    ∀ l : List Nat, l.length ≤ fuel → (∀ b ∈ l, b < 128) →
      utf8LossyAux fuel l = l.map Char.ofNat := by
  induction fuel with
  | zero =>
    intro l hlen _
    have : l = [] := List.eq_nil_of_length_eq_zero (Nat.le_zero.mp hlen)
    subst this
    rfl
  | succ fuel ih =>
    intro l hlen hmem
    match l with
    | [] => rfl
    | b :: rest =>
      have hb : b < 128 := hmem b (List.mem_cons_self b rest)
      have hlen2 : rest.length ≤ fuel := by
        simp only [List.length_cons] at hlen
        omega
      simp [utf8LossyAux, hb, ih rest hlen2 fun x hx => hmem x (List.mem_cons_of_mem b hx)]

theorem utf8Lossy_ascii (l : List Nat) (h : ∀ b ∈ l, b < 128) :
    utf8Lossy l = l.map Char.ofNat :=
  utf8LossyAux_ascii l.length l (Nat.le_refl _) h

theorem replacePlus_id (cs : List Char) (h : '+' ∉ cs) : replacePlus cs = cs := by
  induction cs with
  | nil => rfl
  | cons c cs ih =>
    have hc : c ≠ '+' := fun hc => h (hc ▸ List.mem_cons_self c cs)
    have hcs : '+' ∉ cs := fun hx => h (List.mem_cons_of_mem c hx)
    simp only [replacePlus, List.map_cons, if_neg hc]
    show c :: replacePlus cs = c :: cs
    rw [ih hcs]

theorem plus_not_mem_replacePlus (cs : List Char) : '+' ∉ replacePlus cs := by
  intro hmem
  simp only [replacePlus, List.mem_map] at hmem
  obtain ⟨c, _, hc⟩ := hmem
  by_cases h : c = '+' <;> simp [h] at hc

/-! ### Claims C3 and C4: label formatting -/

/-- Claim C3: `format_city_label` percent-decodes first (with lossy UTF-8
substitution) and replaces `+` by a space only afterwards: it maps
`"Rio%20de%20Janeiro"` to `"Rio de Janeiro"` and `"S%C3%A3o+Paulo"` to
`"São Paulo"`, and since the replacement runs last, no `+` ever survives
in its output (a `+` produced by decoding `%2B` is also replaced). -/
theorem format_label_decode_then_plus :
    format_city_label "Rio%20de%20Janeiro" = "Rio de Janeiro" ∧
    format_city_label "S%C3%A3o+Paulo" = "São Paulo" ∧
    ∀ label : String, '+' ∉ (format_city_label label).data := by
  refine ⟨by decide, by decide, fun label => ?_⟩
  exact plus_not_mem_replacePlus _

/-- Witness for C3 at a concrete input: decoding `%2B` yields `+`, which
the later replacement also turns into a space. -/
theorem format_label_decode_then_plus_witness :
    '+' ∉ (format_city_label "a%2Bb").data :=
  format_label_decode_then_plus.2.2 "a%2Bb"

/-- Claim C4: on ASCII input containing no `%` and no `+`,
`format_city_label` is the identity. -/
theorem format_label_id_on_plain (s : String)
    (hascii : ∀ c ∈ s.data, c.toNat < 128)
    (hpct : '%' ∉ s.data) (hplus : '+' ∉ s.data) :
    format_city_label s = s := by
  have henc : utf8Encode s.data = s.data.map Char.toNat :=
    utf8Encode_ascii s.data hascii
  have h37 : 37 ∉ s.data.map Char.toNat := by
    intro hmem
    simp only [List.mem_map] at hmem
    obtain ⟨c, hc, hc37⟩ := hmem
    have : c = '%' := by
      have := congrArg Char.ofNat hc37
      rwa [Char.ofNat_toNat] at this
    exact hpct (this ▸ hc)
  have hlt : ∀ b ∈ s.data.map Char.toNat, b < 128 := by
    intro b hb
    simp only [List.mem_map] at hb
    obtain ⟨c, hc, hbc⟩ := hb
    exact hbc ▸ hascii c hc
  have hdec : percentDecode (s.data.map Char.toNat) = s.data.map Char.toNat :=
    percentDecode_no37 _ h37
  have hlossy : utf8Lossy (s.data.map Char.toNat) = s.data := by
    rw [utf8Lossy_ascii _ hlt, List.map_map]
    have : (Char.ofNat ∘ Char.toNat) = id := funext fun c => Char.ofNat_toNat c
    simp [this]
  have : format_city_label s = ⟨replacePlus s.data⟩ := by
    unfold format_city_label
    rw [henc, hdec, hlossy]
  rw [this, replacePlus_id s.data hplus]

/-- Witness for C4 at the concrete ASCII string `"Brasilia"`. -/
theorem format_label_id_on_plain_witness :
    format_city_label "Brasilia" = "Brasilia" :=
  format_label_id_on_plain "Brasilia" (by decide) (by decide) (by decide)

/-! ### Lemmas about the serde field loop -/

theorem jLookup_cons_ne {k k2 : String} (hne : ¬ k = k2) (jv : Json)
    (rest : List (String × Json)) :
    jLookup ((k, jv) :: rest) k2 = jLookup rest k2 := by
  simp [jLookup, hne]

theorem countKey_cons_ne {k k2 : String} (hne : ¬ k = k2) (jv : Json)
    (rest : List (String × Json)) :
    countKey ((k, jv) :: rest) k2 = countKey rest k2 := by
  simp [countKey, hne]

theorem FieldInv_tail {k k2 : String} (hne : ¬ k = k2) {jv : Json}
    {rest : List (String × Json)} (o : Option String)
    (h : FieldInv ((k, jv) :: rest) o k2) : FieldInv rest o k2 := by
  cases o with
  | some s =>
    have hc : countKey ((k, jv) :: rest) k2 = 0 := h
    show countKey rest k2 = 0
    rwa [countKey_cons_ne hne] at hc
  | none =>
    have h' : countKey ((k, jv) :: rest) k2 = 1 ∧
        ∃ s, jLookup ((k, jv) :: rest) k2 = some (Json.str s) := h
    obtain ⟨hc, s, hl⟩ := h'
    exact ⟨by rwa [countKey_cons_ne hne] at hc, s, by rwa [jLookup_cons_ne hne] at hl⟩

theorem fieldRes_tail {k k2 : String} (hne : ¬ k = k2) {jv : Json}
    {rest : List (String × Json)} (o : Option String) :
    fieldRes ((k, jv) :: rest) o k2 = fieldRes rest o k2 := by
  cases o with
  | some s => rfl
  | none =>
    show (strLookup ((k, jv) :: rest) k2).getD "" = (strLookup rest k2).getD ""
    unfold strLookup
    rw [jLookup_cons_ne hne]

theorem strLookup_isSome {fs : List (String × Json)} {k : String}
    (h : (strLookup fs k).isSome = true) : ∃ s, jLookup fs k = some (Json.str s) := by
  unfold strLookup at h
  cases hj : jLookup fs k with
  | none => rw [hj] at h; exact Bool.noConfusion h
  | some v =>
    rw [hj] at h
    cases v with
    | str s => exact ⟨s, rfl⟩
    | null => exact Bool.noConfusion h
    | bool b => exact Bool.noConfusion h
    | num n => exact Bool.noConfusion h
    | arr xs => exact Bool.noConfusion h
    | obj fs2 => exact Bool.noConfusion h

theorem goCity_ok (fs : List (String × Json)) :
    ∀ oi ol ov oc, FieldInv fs oi "id" → FieldInv fs ol "label" →
      FieldInv fs ov "value" → FieldInv fs oc "custom" →
      goCity fs oi ol ov oc = Except.ok
        ⟨fieldRes fs oi "id", fieldRes fs ol "label",
          fieldRes fs ov "value", fieldRes fs oc "custom"⟩ := by
  induction fs with
  | nil =>
    intro oi ol ov oc h1 h2 h3 h4
    cases oi with
    | none =>
      have h1' : countKey ([] : List (String × Json)) "id" = 1 ∧
          ∃ s, jLookup [] "id" = some (Json.str s) := h1
      exact absurd h1'.1 (by decide)
    | some i =>
      cases ol with
      | none =>
        have h2' : countKey ([] : List (String × Json)) "label" = 1 ∧
            ∃ s, jLookup [] "label" = some (Json.str s) := h2
        exact absurd h2'.1 (by decide)
      | some l =>
        cases ov with
        | none =>
          have h3' : countKey ([] : List (String × Json)) "value" = 1 ∧
              ∃ s, jLookup [] "value" = some (Json.str s) := h3
          exact absurd h3'.1 (by decide)
        | some v =>
          cases oc with
          | none =>
            have h4' : countKey ([] : List (String × Json)) "custom" = 1 ∧
                ∃ s, jLookup [] "custom" = some (Json.str s) := h4
            exact absurd h4'.1 (by decide)
          | some c => rfl
  | cons hd rest ih =>
    obtain ⟨k, jv⟩ := hd
    intro oi ol ov oc h1 h2 h3 h4
    by_cases hk1 : k = "id"
    · subst hk1
      cases oi with
      | some s0 =>
        exfalso
        have hc : countKey (("id", jv) :: rest) "id" = 0 := h1
        have hred : countKey (("id", jv) :: rest) "id" = 1 + countKey rest "id" := rfl
        rw [hred] at hc
        omega
      | none =>
        have h1' : countKey (("id", jv) :: rest) "id" = 1 ∧
            ∃ s, jLookup (("id", jv) :: rest) "id" = some (Json.str s) := h1
        obtain ⟨hcnt, s, hlook⟩ := h1'
        have hjv : jv = Json.str s := by
          have hred : jLookup (("id", jv) :: rest) "id" = some jv := rfl
          rw [hred] at hlook
          exact Option.some.inj hlook
        subst hjv
        have hcnt2 : countKey rest "id" = 0 := by
          have hred : countKey (("id", Json.str s) :: rest) "id" = 1 + countKey rest "id" := rfl
          rw [hred] at hcnt
          omega
        have i1 : FieldInv rest (some s) "id" := hcnt2
        have i2 : FieldInv rest ol "label" := FieldInv_tail (by decide) ol h2
        have i3 : FieldInv rest ov "value" := FieldInv_tail (by decide) ov h3
        have i4 : FieldInv rest oc "custom" := FieldInv_tail (by decide) oc h4
        have r1 : fieldRes (("id", Json.str s) :: rest) none "id" = s := rfl
        have r2 : fieldRes (("id", Json.str s) :: rest) ol "label" = fieldRes rest ol "label" :=
          fieldRes_tail (by decide) ol
        have r3 : fieldRes (("id", Json.str s) :: rest) ov "value" = fieldRes rest ov "value" :=
          fieldRes_tail (by decide) ov
        have r4 : fieldRes (("id", Json.str s) :: rest) oc "custom" = fieldRes rest oc "custom" :=
          fieldRes_tail (by decide) oc
        rw [r1, r2, r3, r4]
        have hstep : goCity (("id", Json.str s) :: rest) none ol ov oc
            = goCity rest (some s) ol ov oc := rfl
        rw [hstep]
        exact ih (some s) ol ov oc i1 i2 i3 i4
    · by_cases hk2 : k = "label"
      · subst hk2
        cases ol with
        | some s0 =>
          exfalso
          have hc : countKey (("label", jv) :: rest) "label" = 0 := h2
          have hred : countKey (("label", jv) :: rest) "label" = 1 + countKey rest "label" := rfl
          rw [hred] at hc
          omega
        | none =>
          have h2' : countKey (("label", jv) :: rest) "label" = 1 ∧
              ∃ s, jLookup (("label", jv) :: rest) "label" = some (Json.str s) := h2
          obtain ⟨hcnt, s, hlook⟩ := h2'
          have hjv : jv = Json.str s := by
            have hred : jLookup (("label", jv) :: rest) "label" = some jv := rfl
            rw [hred] at hlook
            exact Option.some.inj hlook
          subst hjv
          have hcnt2 : countKey rest "label" = 0 := by
            have hred : countKey (("label", Json.str s) :: rest) "label"
                = 1 + countKey rest "label" := rfl
            rw [hred] at hcnt
            omega
          have i1 : FieldInv rest oi "id" := FieldInv_tail (by decide) oi h1
          have i2 : FieldInv rest (some s) "label" := hcnt2
          have i3 : FieldInv rest ov "value" := FieldInv_tail (by decide) ov h3
          have i4 : FieldInv rest oc "custom" := FieldInv_tail (by decide) oc h4
          have r1 : fieldRes (("label", Json.str s) :: rest) oi "id" = fieldRes rest oi "id" :=
            fieldRes_tail (by decide) oi
          have r2 : fieldRes (("label", Json.str s) :: rest) none "label" = s := rfl
          have r3 : fieldRes (("label", Json.str s) :: rest) ov "value" = fieldRes rest ov "value" :=
            fieldRes_tail (by decide) ov
          have r4 : fieldRes (("label", Json.str s) :: rest) oc "custom" = fieldRes rest oc "custom" :=
            fieldRes_tail (by decide) oc
          rw [r1, r2, r3, r4]
          have hstep : goCity (("label", Json.str s) :: rest) oi none ov oc
              = goCity rest oi (some s) ov oc := rfl
          rw [hstep]
          exact ih oi (some s) ov oc i1 i2 i3 i4
      · by_cases hk3 : k = "value"
        · subst hk3
          cases ov with
          | some s0 =>
            exfalso
            have hc : countKey (("value", jv) :: rest) "value" = 0 := h3
            have hred : countKey (("value", jv) :: rest) "value" = 1 + countKey rest "value" := rfl
            rw [hred] at hc
            omega
          | none =>
            have h3' : countKey (("value", jv) :: rest) "value" = 1 ∧
                ∃ s, jLookup (("value", jv) :: rest) "value" = some (Json.str s) := h3
            obtain ⟨hcnt, s, hlook⟩ := h3'
            have hjv : jv = Json.str s := by
              have hred : jLookup (("value", jv) :: rest) "value" = some jv := rfl
              rw [hred] at hlook
              exact Option.some.inj hlook
            subst hjv
            have hcnt2 : countKey rest "value" = 0 := by
              have hred : countKey (("value", Json.str s) :: rest) "value"
                  = 1 + countKey rest "value" := rfl
              rw [hred] at hcnt
              omega
            have i1 : FieldInv rest oi "id" := FieldInv_tail (by decide) oi h1
            have i2 : FieldInv rest ol "label" := FieldInv_tail (by decide) ol h2
            have i3 : FieldInv rest (some s) "value" := hcnt2
            have i4 : FieldInv rest oc "custom" := FieldInv_tail (by decide) oc h4
            have r1 : fieldRes (("value", Json.str s) :: rest) oi "id" = fieldRes rest oi "id" :=
              fieldRes_tail (by decide) oi
            have r2 : fieldRes (("value", Json.str s) :: rest) ol "label"
                = fieldRes rest ol "label" := fieldRes_tail (by decide) ol
            have r3 : fieldRes (("value", Json.str s) :: rest) none "value" = s := rfl
            have r4 : fieldRes (("value", Json.str s) :: rest) oc "custom"
                = fieldRes rest oc "custom" := fieldRes_tail (by decide) oc
            rw [r1, r2, r3, r4]
            have hstep : goCity (("value", Json.str s) :: rest) oi ol none oc
                = goCity rest oi ol (some s) oc := rfl
            rw [hstep]
            exact ih oi ol (some s) oc i1 i2 i3 i4
        · by_cases hk4 : k = "custom"
          · subst hk4
            cases oc with
            | some s0 =>
              exfalso
              have hc : countKey (("custom", jv) :: rest) "custom" = 0 := h4
              have hred : countKey (("custom", jv) :: rest) "custom"
                  = 1 + countKey rest "custom" := rfl
              rw [hred] at hc
              omega
            | none =>
              have h4' : countKey (("custom", jv) :: rest) "custom" = 1 ∧
                  ∃ s, jLookup (("custom", jv) :: rest) "custom" = some (Json.str s) := h4
              obtain ⟨hcnt, s, hlook⟩ := h4'
              have hjv : jv = Json.str s := by
                have hred : jLookup (("custom", jv) :: rest) "custom" = some jv := rfl
                rw [hred] at hlook
                exact Option.some.inj hlook
              subst hjv
              have hcnt2 : countKey rest "custom" = 0 := by
                have hred : countKey (("custom", Json.str s) :: rest) "custom"
                    = 1 + countKey rest "custom" := rfl
                rw [hred] at hcnt
                omega
              have i1 : FieldInv rest oi "id" := FieldInv_tail (by decide) oi h1
              have i2 : FieldInv rest ol "label" := FieldInv_tail (by decide) ol h2
              have i3 : FieldInv rest ov "value" := FieldInv_tail (by decide) ov h3
              have i4 : FieldInv rest (some s) "custom" := hcnt2
              have r1 : fieldRes (("custom", Json.str s) :: rest) oi "id" = fieldRes rest oi "id" :=
                fieldRes_tail (by decide) oi
              have r2 : fieldRes (("custom", Json.str s) :: rest) ol "label"
                  = fieldRes rest ol "label" := fieldRes_tail (by decide) ol
              have r3 : fieldRes (("custom", Json.str s) :: rest) ov "value"
                  = fieldRes rest ov "value" := fieldRes_tail (by decide) ov
              have r4 : fieldRes (("custom", Json.str s) :: rest) none "custom" = s := rfl
              rw [r1, r2, r3, r4]
              have hstep : goCity (("custom", Json.str s) :: rest) oi ol ov none
                  = goCity rest oi ol ov (some s) := rfl
              rw [hstep]
              exact ih oi ol ov (some s) i1 i2 i3 i4
          · have i1 : FieldInv rest oi "id" := FieldInv_tail hk1 oi h1
            have i2 : FieldInv rest ol "label" := FieldInv_tail hk2 ol h2
            have i3 : FieldInv rest ov "value" := FieldInv_tail hk3 ov h3
            have i4 : FieldInv rest oc "custom" := FieldInv_tail hk4 oc h4
            have r1 : fieldRes ((k, jv) :: rest) oi "id" = fieldRes rest oi "id" :=
              fieldRes_tail hk1 oi
            have r2 : fieldRes ((k, jv) :: rest) ol "label" = fieldRes rest ol "label" :=
              fieldRes_tail hk2 ol
            have r3 : fieldRes ((k, jv) :: rest) ov "value" = fieldRes rest ov "value" :=
              fieldRes_tail hk3 ov
            have r4 : fieldRes ((k, jv) :: rest) oc "custom" = fieldRes rest oc "custom" :=
              fieldRes_tail hk4 oc
            rw [r1, r2, r3, r4]
            have hstep : goCity ((k, jv) :: rest) oi ol ov oc = goCity rest oi ol ov oc := by
              simp only [goCity, if_neg hk1, if_neg hk2, if_neg hk3, if_neg hk4]
            rw [hstep]
            exact ih oi ol ov oc i1 i2 i3 i4

theorem goCity_ok_key (fs : List (String × Json)) :
    ∀ oi ol ov oc c, goCity fs oi ol ov oc = Except.ok c →
      (oi = none → ∃ s, jLookup fs "id" = some (Json.str s)) ∧
      (ol = none → ∃ s, jLookup fs "label" = some (Json.str s)) ∧
      (ov = none → ∃ s, jLookup fs "value" = some (Json.str s)) ∧
      (oc = none → ∃ s, jLookup fs "custom" = some (Json.str s)) := by
  induction fs with
  | nil =>
    intro oi ol ov oc c h
    cases oi with
    | none => exact Except.noConfusion h
    | some i =>
      cases ol with
      | none => exact Except.noConfusion h
      | some l =>
        cases ov with
        | none => exact Except.noConfusion h
        | some v =>
          cases oc with
          | none => exact Except.noConfusion h
          | some c2 =>
            exact ⟨fun h0 => Option.noConfusion h0, fun h0 => Option.noConfusion h0,
              fun h0 => Option.noConfusion h0, fun h0 => Option.noConfusion h0⟩
  | cons hd rest ih =>
    obtain ⟨k, jv⟩ := hd
    intro oi ol ov oc c h
    by_cases hk1 : k = "id"
    · subst hk1
      cases oi with
      | some s0 =>
        refine ⟨fun h0 => Option.noConfusion h0, ?_, ?_, ?_⟩ <;> exact Except.noConfusion h
      | none =>
        cases jv with
        | str s =>
          have h' : goCity rest (some s) ol ov oc = Except.ok c := h
          obtain ⟨_, c2, c3, c4⟩ := ih (some s) ol ov oc c h'
          refine ⟨fun _ => ⟨s, rfl⟩, fun h0 => ?_, fun h0 => ?_, fun h0 => ?_⟩
          · obtain ⟨s2, hs2⟩ := c2 h0
            exact ⟨s2, by rw [jLookup_cons_ne (by decide)]; exact hs2⟩
          · obtain ⟨s2, hs2⟩ := c3 h0
            exact ⟨s2, by rw [jLookup_cons_ne (by decide)]; exact hs2⟩
          · obtain ⟨s2, hs2⟩ := c4 h0
            exact ⟨s2, by rw [jLookup_cons_ne (by decide)]; exact hs2⟩
        | null => exact Except.noConfusion h
        | bool b => exact Except.noConfusion h
        | num n => exact Except.noConfusion h
        | arr xs => exact Except.noConfusion h
        | obj fs2 => exact Except.noConfusion h
    · by_cases hk2 : k = "label"
      · subst hk2
        cases ol with
        | some s0 =>
          refine ⟨?_, fun h0 => Option.noConfusion h0, ?_, ?_⟩ <;> exact Except.noConfusion h
        | none =>
          cases jv with
          | str s =>
            have h' : goCity rest oi (some s) ov oc = Except.ok c := h
            obtain ⟨c1, _, c3, c4⟩ := ih oi (some s) ov oc c h'
            refine ⟨fun h0 => ?_, fun _ => ⟨s, rfl⟩, fun h0 => ?_, fun h0 => ?_⟩
            · obtain ⟨s2, hs2⟩ := c1 h0
              exact ⟨s2, by rw [jLookup_cons_ne (by decide)]; exact hs2⟩
            · obtain ⟨s2, hs2⟩ := c3 h0
              exact ⟨s2, by rw [jLookup_cons_ne (by decide)]; exact hs2⟩
            · obtain ⟨s2, hs2⟩ := c4 h0
              exact ⟨s2, by rw [jLookup_cons_ne (by decide)]; exact hs2⟩
          | null => exact Except.noConfusion h
          | bool b => exact Except.noConfusion h
          | num n => exact Except.noConfusion h
          | arr xs => exact Except.noConfusion h
          | obj fs2 => exact Except.noConfusion h
      · by_cases hk3 : k = "value"
        · subst hk3
          cases ov with
          | some s0 =>
            refine ⟨?_, ?_, fun h0 => Option.noConfusion h0, ?_⟩ <;> exact Except.noConfusion h
          | none =>
            cases jv with
            | str s =>
              have h' : goCity rest oi ol (some s) oc = Except.ok c := h
              obtain ⟨c1, c2, _, c4⟩ := ih oi ol (some s) oc c h'
              refine ⟨fun h0 => ?_, fun h0 => ?_, fun _ => ⟨s, rfl⟩, fun h0 => ?_⟩
              · obtain ⟨s2, hs2⟩ := c1 h0
                exact ⟨s2, by rw [jLookup_cons_ne (by decide)]; exact hs2⟩
              · obtain ⟨s2, hs2⟩ := c2 h0
                exact ⟨s2, by rw [jLookup_cons_ne (by decide)]; exact hs2⟩
              · obtain ⟨s2, hs2⟩ := c4 h0
                exact ⟨s2, by rw [jLookup_cons_ne (by decide)]; exact hs2⟩
            | null => exact Except.noConfusion h
            | bool b => exact Except.noConfusion h
            | num n => exact Except.noConfusion h
            | arr xs => exact Except.noConfusion h
            | obj fs2 => exact Except.noConfusion h
        · by_cases hk4 : k = "custom"
          · subst hk4
            cases oc with
            | some s0 =>
              refine ⟨?_, ?_, ?_, fun h0 => Option.noConfusion h0⟩ <;> exact Except.noConfusion h
            | none =>
              cases jv with
              | str s =>
                have h' : goCity rest oi ol ov (some s) = Except.ok c := h
                obtain ⟨c1, c2, c3, _⟩ := ih oi ol ov (some s) c h'
                refine ⟨fun h0 => ?_, fun h0 => ?_, fun h0 => ?_, fun _ => ⟨s, rfl⟩⟩
                · obtain ⟨s2, hs2⟩ := c1 h0
                  exact ⟨s2, by rw [jLookup_cons_ne (by decide)]; exact hs2⟩
                · obtain ⟨s2, hs2⟩ := c2 h0
                  exact ⟨s2, by rw [jLookup_cons_ne (by decide)]; exact hs2⟩
                · obtain ⟨s2, hs2⟩ := c3 h0
                  exact ⟨s2, by rw [jLookup_cons_ne (by decide)]; exact hs2⟩
              | null => exact Except.noConfusion h
              | bool b => exact Except.noConfusion h
              | num n => exact Except.noConfusion h
              | arr xs => exact Except.noConfusion h
              | obj fs2 => exact Except.noConfusion h
          · have hstep : goCity ((k, jv) :: rest) oi ol ov oc = goCity rest oi ol ov oc := by
              simp only [goCity, if_neg hk1, if_neg hk2, if_neg hk3, if_neg hk4]
            rw [hstep] at h
            obtain ⟨c1, c2, c3, c4⟩ := ih oi ol ov oc c h
            refine ⟨fun h0 => ?_, fun h0 => ?_, fun h0 => ?_, fun h0 => ?_⟩
            · obtain ⟨s2, hs2⟩ := c1 h0
              exact ⟨s2, by rw [jLookup_cons_ne hk1]; exact hs2⟩
            · obtain ⟨s2, hs2⟩ := c2 h0
              exact ⟨s2, by rw [jLookup_cons_ne hk2]; exact hs2⟩
            · obtain ⟨s2, hs2⟩ := c3 h0
              exact ⟨s2, by rw [jLookup_cons_ne hk3]; exact hs2⟩
            · obtain ⟨s2, hs2⟩ := c4 h0
              exact ⟨s2, by rw [jLookup_cons_ne hk4]; exact hs2⟩

theorem deserializeCity_good (j : Json) (h : isGoodCityObj j = true) :
    deserializeCity j = Except.ok (cityOfJson j) := by
  cases j with
  | obj fs =>
    have h' : (countKey fs "id" = 1 ∧ (strLookup fs "id").isSome = true) ∧
        (countKey fs "label" = 1 ∧ (strLookup fs "label").isSome = true) ∧
        (countKey fs "value" = 1 ∧ (strLookup fs "value").isSome = true) ∧
        (countKey fs "custom" = 1 ∧ (strLookup fs "custom").isSome = true) := by
      have hh : (["id", "label", "value", "custom"].all fun k =>
          (countKey fs k == 1) && (strLookup fs k).isSome) = true := h
      simpa [List.all_cons, List.all_nil, Bool.and_eq_true, beq_iff_eq] using hh
    obtain ⟨⟨hc1, hs1⟩, ⟨hc2, hs2⟩, ⟨hc3, hs3⟩, ⟨hc4, hs4⟩⟩ := h'
    have i1 : FieldInv fs none "id" := ⟨hc1, strLookup_isSome hs1⟩
    have i2 : FieldInv fs none "label" := ⟨hc2, strLookup_isSome hs2⟩
    have i3 : FieldInv fs none "value" := ⟨hc3, strLookup_isSome hs3⟩
    have i4 : FieldInv fs none "custom" := ⟨hc4, strLookup_isSome hs4⟩
    exact goCity_ok fs none none none none i1 i2 i3 i4
  | null => exact Bool.noConfusion h
  | bool b => exact Bool.noConfusion h
  | num n => exact Bool.noConfusion h
  | str s => exact Bool.noConfusion h
  | arr xs => exact Bool.noConfusion h

theorem deserializeCity_bad (j : Json) (hbad : isBadCityObj j = true) :
    ∃ e, deserializeCity j = Except.error e := by
  cases j with
  | obj fs =>
    cases hres : goCity fs none none none none with
    | error e => exact ⟨e, hres⟩
    | ok c =>
      exfalso
      obtain ⟨c1, c2, c3, c4⟩ := goCity_ok_key fs none none none none c hres
      have hb : badKeyB fs "id" = true ∨ badKeyB fs "label" = true ∨
          badKeyB fs "value" = true ∨ badKeyB fs "custom" = true := by
        have hh : (["id", "label", "value", "custom"].any (badKeyB fs)) = true := hbad
        simpa [List.any_cons, List.any_nil, Bool.or_eq_true] using hh
      have contra : ∀ k2 : String, (∃ s, jLookup fs k2 = some (Json.str s)) →
          badKeyB fs k2 = true → False := by
        intro k2 hs hb2
        obtain ⟨s, hs⟩ := hs
        unfold badKeyB at hb2
        rw [hs] at hb2
        exact Bool.noConfusion hb2
      rcases hb with hb | hb | hb | hb
      · exact contra "id" (c1 rfl) hb
      · exact contra "label" (c2 rfl) hb
      · exact contra "value" (c3 rfl) hb
      · exact contra "custom" (c4 rfl) hb
  | null => exact ⟨_, rfl⟩
  | bool b => exact ⟨_, rfl⟩
  | num n => exact ⟨_, rfl⟩
  | str s => exact ⟨_, rfl⟩
  | arr xs => exact ⟨_, rfl⟩

theorem mapCities_good (js : List Json)
    (h : ∀ j ∈ js, deserializeCity j = Except.ok (cityOfJson j)) :
    mapCities js = Except.ok (js.map cityOfJson) := by
  induction js with
  | nil => rfl
  | cons j rest ih =>
    have hj := h j (List.mem_cons_self j rest)
    have hrest := ih fun x hx => h x (List.mem_cons_of_mem j hx)
    simp [mapCities, hj, hrest]

theorem mapCities_bad (js : List Json) (j : Json) (hmem : j ∈ js)
    (hj : ∃ e, deserializeCity j = Except.error e) :
    ∃ e, mapCities js = Except.error e := by
  induction js with
  | nil => cases hmem
  | cons a rest ih =>
    rcases List.mem_cons.mp hmem with rfl | hmem2
    · obtain ⟨e, he⟩ := hj
      exact ⟨e, by simp [mapCities, he]⟩
    · cases ha : deserializeCity a with
      | error e => exact ⟨e, by simp [mapCities, ha]⟩
      | ok c =>
        obtain ⟨e, he⟩ := ih hmem2
        exact ⟨e, by simp [mapCities, ha, he]⟩

/-! ### Claim C5: shape of `search_cities` results -/

/-- Claim C5: on a JSON array whose elements each carry the four string
fields `id`, `label`, `value`, `custom`, `search_cities` succeeds with one
`City` per element, in order, the field values taken verbatim from the
JSON; an element that is not an object, or is missing a known field, or
binds one to a non-string, makes it fail with a deserialization error. -/
theorem search_cities_shape :
    (∀ js : List Json, (∀ j ∈ js, isGoodCityObj j = true) →
      search_cities (Json.arr js) = Except.ok (js.map cityOfJson) ∧
      (js.map cityOfJson).length = js.length) ∧
    ∀ js : List Json, ∀ j ∈ js, isBadCityObj j = true →
      ∃ e, search_cities (Json.arr js) = Except.error e := by
  constructor
  · intro js h
    refine ⟨?_, by simp⟩
    exact mapCities_good js fun j hj => deserializeCity_good j (h j hj)
  · intro js j hmem hbad
    exact mapCities_bad js j hmem (deserializeCity_bad j hbad)

/-- Witness for C5 at two concrete elements (the second with reordered
fields and an extra ignored one) and at one bad element (missing field). -/
theorem search_cities_shape_witness :
    (search_cities (Json.arr [goodJson1, goodJson2]) =
      Except.ok ([goodJson1, goodJson2].map cityOfJson) ∧
      ([goodJson1, goodJson2].map cityOfJson).length = 2) ∧
    ∃ e, search_cities (Json.arr [Json.obj [("id", Json.str "9")]]) = Except.error e :=
  ⟨search_cities_shape.1 [goodJson1, goodJson2] (by decide),
    search_cities_shape.2 [Json.obj [("id", Json.str "9")]] _
      (List.mem_cons_self _ _) (by decide)⟩

/-! ### Lemmas about the document search -/

mutual
theorem findImg_true (n : Node) : findImg true n = firstImgIncl n := by
  cases n with
  | text s => rfl
  | elem name attrs children =>
    by_cases himg : isImg (Node.elem name attrs children) = true
    · simp [findImg, firstImgIncl, himg]
    · have himg' : isImg (Node.elem name attrs children) = false := by
        simpa using himg
      simp [findImg, firstImgIncl, himg', findImgList_true children]

theorem findImgList_true (l : List Node) : findImgList true l = firstImgInclList l := by
  cases l with
  | nil => rfl
  | cons n rest =>
    rw [findImgList, firstImgInclList, findImg_true n, findImgList_true rest]
end

mutual
theorem findImg_noDiv (n : Node) (h : firstDiv n = none) : findImg false n = none := by
  cases n with
  | text s => rfl
  | elem name attrs children =>
    by_cases hd : isMeteoDiv (Node.elem name attrs children) = true
    · simp [firstDiv, hd] at h
    · have hd' : isMeteoDiv (Node.elem name attrs children) = false := by simpa using hd
      have h2 : firstDivList children = none := by simpa [firstDiv, hd'] using h
      simp [findImg, hd', findImgList_noDiv children h2]

theorem findImgList_noDiv (l : List Node) (h : firstDivList l = none) :
    findImgList false l = none := by
  cases l with
  | nil => rfl
  | cons n rest =>
    cases hfd : firstDiv n with
    | some d => simp [firstDivList, hfd] at h
    | none =>
      have h2 : firstDivList rest = none := by simpa [firstDivList, hfd] using h
      rw [findImgList, findImg_noDiv n hfd, findImgList_noDiv rest h2]
end

mutual
theorem findImg_first (n : Node) (d i : Node) (hd : firstDiv n = some d)
    (hi : firstImgIncl d = some i) : findImg false n = some i := by
  cases n with
  | text s => simp [firstDiv] at hd
  | elem name attrs children =>
    by_cases hm : isMeteoDiv (Node.elem name attrs children) = true
    · have hdn : d = Node.elem name attrs children := by
        have : some (Node.elem name attrs children) = some d := by
          simpa [firstDiv, hm] using hd
        exact (Option.some.inj this).symm
      subst hdn
      have hname : name = "div" := by
        have := hm
        simp only [isMeteoDiv, Bool.and_eq_true, decide_eq_true_eq] at this
        exact this.1
      have himg : isImg (Node.elem name attrs children) = false := by
        simp [isImg, hname]
      have hi2 : firstImgInclList children = some i := by
        simpa [firstImgIncl, himg] using hi
      simp [findImg, hm, himg, findImgList_true children, hi2]
    · have hm' : isMeteoDiv (Node.elem name attrs children) = false := by simpa using hm
      have hd2 : firstDivList children = some d := by simpa [firstDiv, hm'] using hd
      simp [findImg, hm', findImgList_first children d i hd2 hi]

theorem findImgList_first (l : List Node) (d i : Node) (hd : firstDivList l = some d)
    (hi : firstImgIncl d = some i) : findImgList false l = some i := by
  cases l with
  | nil => simp [firstDivList] at hd
  | cons n rest =>
    cases hfd : firstDiv n with
    | some d2 =>
      have hdd : d2 = d := by
        have : some d2 = some d := by simpa [firstDivList, hfd] using hd
        exact Option.some.inj this
      subst hdd
      rw [findImgList, findImg_first n d2 i hfd hi]
    | none =>
      have hd2 : firstDivList rest = some d := by simpa [firstDivList, hfd] using hd
      rw [findImgList, findImg_noDiv n hfd, findImgList_first rest d i hd2 hi]
end

mutual
theorem firstDiv_isMeteo (n d : Node) (hd : firstDiv n = some d) : isMeteoDiv d = true := by
  cases n with
  | text s => simp [firstDiv] at hd
  | elem name attrs children =>
    by_cases hm : isMeteoDiv (Node.elem name attrs children) = true
    · have hdn : d = Node.elem name attrs children := by
        have : some (Node.elem name attrs children) = some d := by
          simpa [firstDiv, hm] using hd
        exact (Option.some.inj this).symm
      subst hdn
      exact hm
    · have hm' : isMeteoDiv (Node.elem name attrs children) = false := by simpa using hm
      have hd2 : firstDivList children = some d := by simpa [firstDiv, hm'] using hd
      exact firstDivList_isMeteo children d hd2

theorem firstDivList_isMeteo (l : List Node) (d : Node) (hd : firstDivList l = some d) :
    isMeteoDiv d = true := by
  cases l with
  | nil => simp [firstDivList] at hd
  | cons n rest =>
    cases hfd : firstDiv n with
    | some d2 =>
      have hdd : d2 = d := by
        have : some d2 = some d := by simpa [firstDivList, hfd] using hd
        exact Option.some.inj this
      subst hdd
      exact firstDiv_isMeteo n d2 hfd
    | none =>
      have hd2 : firstDivList rest = some d := by simpa [firstDivList, hfd] using hd
      exact firstDivList_isMeteo rest d hd2
end

mutual
theorem findImg_head (flag : Bool) (n : Node) : findImg flag n = (collectImg flag n).head? := by
  cases n with
  | text s => rfl
  | elem name attrs children =>
    by_cases hc : (flag && isImg (Node.elem name attrs children)) = true
    · simp [findImg, collectImg, hc]
    · have hc' : (flag && isImg (Node.elem name attrs children)) = false := by simpa using hc
      simp [findImg, collectImg, hc',
        findImgList_head (flag || isMeteoDiv (Node.elem name attrs children)) children]

theorem findImgList_head (flag : Bool) (l : List Node) :
    findImgList flag l = (collectImgList flag l).head? := by
  cases l with
  | nil => rfl
  | cons n rest =>
    cases hc : collectImg flag n with
    | nil =>
      have h1 : findImg flag n = none := by rw [findImg_head flag n, hc]; rfl
      rw [findImgList, h1, collectImgList, hc, List.nil_append]
      exact findImgList_head flag rest
    | cons n2 t =>
      have h1 : findImg flag n = some n2 := by rw [findImg_head flag n, hc]; rfl
      rw [findImgList, h1, collectImgList, hc, List.cons_append]
      rfl
end

/-- The search result of the code is the head of the document-order list
of selector matches. -/
theorem scrape_head (doc : List Node) :
    scrape_meteogram_url doc =
      match (matchingImgs doc).head? with
      | none => none
      | some n => nodeAttr n "src" := by
  unfold scrape_meteogram_url matchingImgs
  rw [findImgList_head false doc]

/-- Core lemma for the positive scrape claims: if the first meteogram div
exists and the first `img` among its descendants carries `src = v`, the
code returns `some v`. -/
theorem scrape_of_first (doc : List Node) (d i : Node) (v : String)
    (hd : firstDivList doc = some d) (hi : descFirstImg d = some i)
    (hv : nodeAttr i "src" = some v) : scrape_meteogram_url doc = some v := by
  have hmd : isMeteoDiv d = true := firstDivList_isMeteo doc d hd
  cases d with
  | text s => simp [isMeteoDiv] at hmd
  | elem name attrs children =>
    have hname : name = "div" := by
      simp only [isMeteoDiv, Bool.and_eq_true, decide_eq_true_eq] at hmd
      exact hmd.1
    have himg : isImg (Node.elem name attrs children) = false := by simp [isImg, hname]
    have hin : firstImgIncl (Node.elem name attrs children) = some i := by
      have hdesc : firstImgInclList children = some i := hi
      simp [firstImgIncl, himg, hdesc]
    have hfind : findImgList false doc = some i := findImgList_first doc _ i hd hin
    simp [scrape_meteogram_url, hfind, hv]

/-! ### Claims C1 and C2: selection on out-of-range input and on an empty
candidate list -/

/-- Claim C1 (code bug): with one candidate, the out-of-range index `1`
does not produce a recoverable invalid-selection error — `&cities[index]`
panics. Non-numeric input does fail with the propagated parse error, and
an in-range index returns the candidate. -/
theorem select_out_of_range_panics :
    select_city_prompt [sampleCity] "1" = SelectOutcome.indexPanic ∧
    select_city_prompt [sampleCity] "abc" = SelectOutcome.parseErr ∧
    select_city_prompt [sampleCity] "0" = SelectOutcome.ok sampleCity := by
  decide

/-- Claim C2 (code bug): with zero candidates the code still prompts and
parses; a numeric reply panics at `&cities[index]` and a non-numeric reply
fails with the parse error — no `NoResultsError` exists anywhere in the
code. -/
theorem select_empty_list_panics :
    select_city_prompt [] "0" = SelectOutcome.indexPanic ∧
    select_city_prompt [] "abc" = SelectOutcome.parseErr := by
  decide

/-! ### Claims C6, C7 and C10: the meteogram locator -/

/-- Claim C6: when the document has a meteogram div whose descendant
subtree has a first `img` (document order) carrying `src = v`, the scrape
returns `some v`; in particular the spec's fixture
`<div id="meteograma"><span><img src="/x.png"></span></div>` yields
`some "/x.png"`. -/
theorem scrape_first_div_first_img :
    (∀ (doc : List Node) (d i : Node) (v : String),
      firstDivList doc = some d → descFirstImg d = some i →
      nodeAttr i "src" = some v → scrape_meteogram_url doc = some v) ∧
    scrape_meteogram_url doc6 = some "/x.png" :=
  ⟨fun doc d i v hd hi hv => scrape_of_first doc d i v hd hi hv, rfl⟩

/-- Witness for C6 at the spec's fixture. -/
theorem scrape_first_div_first_img_witness :
    scrape_meteogram_url doc6 = some "/x.png" :=
  scrape_first_div_first_img.1 doc6
    (.elem "div" [("id", "meteograma")] [.elem "span" [] [imgX]]) imgX "/x.png" rfl rfl rfl

/-- Counterexample to C7 as stated: in `doc7` the first meteogram div has
no descendant `img`, yet the scrape does not return `None` — it returns
the `img` of the second meteogram div. -/
theorem scrape_absence_counterexample :
    firstDivList doc7 = some emptyDiv ∧ descFirstImg emptyDiv = none ∧
    scrape_meteogram_url doc7 = some "/y.png" :=
  ⟨rfl, rfl, rfl⟩

/-- Claim C7 (amended): the locator is a total function into `Option` (no
parse failure on any document tree), and it returns `none` exactly when no
`img` in the whole document has a meteogram-div strict ancestor, or the
first such `img` in document order has no `src` attribute — not merely
when the first meteogram div lacks one. -/
theorem scrape_none_iff (doc : List Node) :
    scrape_meteogram_url doc = none ↔
      matchingImgs doc = [] ∨
      ∃ n t, matchingImgs doc = n :: t ∧ nodeAttr n "src" = none := by
  rw [scrape_head doc]
  cases hc : matchingImgs doc with
  | nil => simp
  | cons n t =>
    show (nodeAttr n "src" = none) ↔ _
    constructor
    · intro h
      exact Or.inr ⟨n, t, rfl, h⟩
    · rintro (habs | ⟨n2, t2, heq, hattr⟩)
      · exact absurd habs (by simp)
      · obtain ⟨hn, -⟩ := List.cons.inj heq
        rw [hn]
        exact hattr

/-- Witness for C7 (amended) at the empty document. -/
theorem scrape_none_iff_witness : scrape_meteogram_url [] = none :=
  (scrape_none_iff []).mpr (Or.inl rfl)

/-- Claim C10: an empty-string `src` on the located `img` is still
`some ""` — absence is reported only for a missing attribute. -/
theorem scrape_empty_src_some :
    (∀ (doc : List Node) (d i : Node),
      firstDivList doc = some d → descFirstImg d = some i →
      nodeAttr i "src" = some "" → scrape_meteogram_url doc = some "") ∧
    scrape_meteogram_url doc10 = some "" :=
  ⟨fun doc d i hd hi hv => scrape_of_first doc d i "" hd hi hv, rfl⟩

/-- Witness for C10 at `<div id="meteograma"><img src=""></div>`. -/
theorem scrape_empty_src_some_witness : scrape_meteogram_url doc10 = some "" :=
  scrape_empty_src_some.1 doc10 (.elem "div" [("id", "meteograma")] [imgEmptySrc])
    imgEmptySrc rfl rfl rfl

/-! ### Claim C8: pipeline composition -/

/-- Claim C8: `fetch_meteogram` chains page fetch, locator and asset
fetch: a page-fetch transport failure propagates as the same network
error; locator absence — and only locator absence — becomes the not-found
error (the locator itself returns an `Option`, the conversion happens once
in the orchestrator); an asset-fetch transport failure propagates as the
same network error; and when all three succeed the bytes are returned. -/
theorem fetch_meteogram_composition (env : Env) (c : City) :
    (∀ e, env.getText (forecast_url c) = .error e →
      fetch_meteogram env c = .error (.network e)) ∧
    (∀ page, env.getText (forecast_url c) = .ok page →
      scrape_meteogram_url (env.parseHtml page) = none →
      fetch_meteogram env c = .error .meteogramNotFound) ∧
    (∀ page url e, env.getText (forecast_url c) = .ok page →
      scrape_meteogram_url (env.parseHtml page) = some url →
      env.getBytes url = .error e →
      fetch_meteogram env c = .error (.network e)) ∧
    (∀ page url bs, env.getText (forecast_url c) = .ok page →
      scrape_meteogram_url (env.parseHtml page) = some url →
      env.getBytes url = .ok bs →
      fetch_meteogram env c = .ok bs) ∧
    (fetch_meteogram env c = .error .meteogramNotFound ↔
      ∃ page, env.getText (forecast_url c) = .ok page ∧
        scrape_meteogram_url (env.parseHtml page) = none) := by
  refine ⟨?_, ?_, ?_, ?_, ?_⟩
  · intro e h
    simp [fetch_meteogram, fetch_forecast_page, h]
  · intro page h1 h2
    simp [fetch_meteogram, fetch_forecast_page, h1, h2]
  · intro page url e h1 h2 h3
    simp [fetch_meteogram, fetch_forecast_page, h1, h2, h3]
  · intro page url bs h1 h2 h3
    simp [fetch_meteogram, fetch_forecast_page, h1, h2, h3]
  · constructor
    · intro h
      cases hg : env.getText (forecast_url c) with
      | error e => simp [fetch_meteogram, fetch_forecast_page, hg] at h
      | ok page =>
        cases hs : scrape_meteogram_url (env.parseHtml page) with
        | none => exact ⟨page, rfl, hs⟩
        | some url =>
          cases hb : env.getBytes url with
          | ok bs => simp [fetch_meteogram, fetch_forecast_page, hg, hs, hb] at h
          | error e => simp [fetch_meteogram, fetch_forecast_page, hg, hs, hb] at h
    · rintro ⟨page, hg, hs⟩
      simp [fetch_meteogram, fetch_forecast_page, hg, hs]

/-- Witness for C8: a fully successful run of the pipeline in the sample
environment. -/
theorem fetch_meteogram_composition_witness :
    fetch_meteogram sampleEnv sampleCity = .ok [137, 80, 78, 71] :=
  (fetch_meteogram_composition sampleEnv sampleCity).2.2.2.1 "<page>" "/x.png"
    [137, 80, 78, 71] rfl rfl rfl

/-- Claim C9: the forecast-page URL is the service base URL with
`city.custom` appended verbatim — character for character, with no
encoding or normalization. -/
theorem forecast_url_verbatim :
    (∀ c : City, forecast_url c = "https://tempo.cptec.inpe.br/" ++ c.custom) ∧
    ∀ c : City, (forecast_url c).data = "https://tempo.cptec.inpe.br/".data ++ c.custom.data := by
  refine ⟨fun c => rfl, fun c => ?_⟩
  simp [forecast_url]

end Meteo
